import Mathlib

/-!
A shallow embedding of the movie ETL pipeline (`etl.py`) and proofs of the
spec claims about it.  Python strings are modelled as `List Char`, Python
`None`-able values as `Option`, the SQLite store as explicit record states,
and network / store faults as explicit oracles.
-/

set_option maxHeartbeats 1000000

/-- Python strings, modelled as lists of characters so every string operation
of the source can be re-implemented with its exact Python semantics and stays
kernel-evaluable. -/
abbrev Str := List Char

/-- ASCII whitespace recognised by Python's `str.strip()` / `str.split()`. -/
def isSpace (c : Char) : Bool :=
  c == ' ' || c == '\t' || c == '\n' || c == '\r' || c == '\x0b' || c == '\x0c'

/-- Drop trailing characters satisfying `p` (right-hand part of a strip). -/
def dropRightWhile (p : Char → Bool) (s : Str) : Str :=
  (s.reverse.dropWhile p).reverse

/-- Python `str.strip()`: remove leading and trailing whitespace. -/
def pyStrip (s : Str) : Str :=
  dropRightWhile isSpace (s.dropWhile isSpace)

/-- Python `str.rstrip(c)` for a single character `c`: drop every trailing `c`. -/
def rstripChar (c : Char) (s : Str) : Str :=
  dropRightWhile (fun x => x == c) s

/-- Python `s.split(sep)` for a single-character separator `sep`.
`"".split(sep) = [""]`, `"|".split("|") = ["", ""]`, etc. -/
def splitChar (sep : Char) : Str → List Str
  | [] => [[]]
  | c :: rest =>
    match splitChar sep rest with
    | [] => if c == sep then [[], []] else [[c]]
    | t :: ts => if c == sep then [] :: t :: ts else (c :: t) :: ts

/-- Python `s.split()` (no argument): split on whitespace runs, no empty pieces. -/
def pySplitWs : Str → List Str
  | [] => []
  | c :: rest =>
    if isSpace c then pySplitWs rest
    else
      match pySplitWs rest with
      | [] => [[c]]
      | t :: ts =>
        match rest with
        | [] => [[c]]
        | r :: _ => if isSpace r then [c] :: t :: ts else (c :: t) :: ts

/-- Does `c` occur in `s`?  Models Python `"<c>" in s` for a one-character
pattern. -/
def containsChar (c : Char) (s : Str) : Bool :=
  s.any (fun x => x == c)

/-- Is `pat` a contiguous substring of `s` (Python `pat in s`)? -/
def startsWithStr : Str → Str → Bool
  | [], _ => true
  | _ :: _, [] => false
  | a :: as, b :: bs => a == b && startsWithStr as bs

/-- Substring containment, Python `pat in s` for a multi-character pattern. -/
def containsSub (pat : Str) : Str → Bool
  | [] => startsWithStr pat []
  | c :: rest => startsWithStr pat (c :: rest) || containsSub pat rest

/-- Value of an ASCII decimal digit. -/
def digitVal (c : Char) : Option Nat :=
  if '0' ≤ c && c ≤ '9' then some (c.toNat - '0'.toNat) else none

/-- After the first digit Python `int()` allows single underscores between
digits. -/
def parseDigitsRest : Str → Nat → Option Nat
  | [], acc => some acc
  | '_' :: c :: rest, acc =>
    match digitVal c with
    | some d => parseDigitsRest rest (acc * 10 + d)
    | none => none
  | ['_'], _ => none
  | c :: rest, acc =>
    match digitVal c with
    | some d => parseDigitsRest rest (acc * 10 + d)
    | none => none

/-- A non-empty digit group (first char must be a digit). -/
def parseDigits : Str → Option Nat
  | [] => none
  | c :: rest =>
    match digitVal c with
    | some d => parseDigitsRest rest d
    | none => none

/-- Python `int(s)` on a string: optional surrounding whitespace, optional
sign, then decimal digits (single underscores allowed between digits).
`none` models a raised `ValueError`. -/
def pyInt (s : Str) : Option Int :=
  match pyStrip s with
  | '+' :: rest => (parseDigits rest).map Int.ofNat
  | '-' :: rest => (parseDigits rest).map (fun n => -(Int.ofNat n : Int))
  | rest => (parseDigits rest).map Int.ofNat

/-- Decimal rendering of a natural number, fuel-indexed so the kernel can
evaluate it. -/
def natToStrGo : Nat → Nat → Str → Str
  | 0, _, acc => acc
  | fuel + 1, n, acc =>
    if n = 0 then acc
    else natToStrGo fuel (n / 10) (Char.ofNat ('0'.toNat + n % 10) :: acc)

/-- Python `str(n)` for a natural number. -/
def natToStr (n : Nat) : Str :=
  if n = 0 then ['0'] else natToStrGo (n + 1) n []

/-- Python `str(n)` / f-string rendering of an int. -/
def intToStr : Int → Str
  | Int.ofNat n => natToStr n
  | Int.negSucc n => '-' :: natToStr (n + 1)

/-- The sentinel genre marker of the catalog data. -/
def noGenres : Str := "(no genres listed)".data

/-- `parse_genres` from `etl.py` (lines 49-56).  The argument is `none` when
the pandas cell is `NaN`; the empty string is also falsy in Python.
MovieLens strings (containing `|`) are split on `|` with the sentinel
filtered; anything else is split on `,` with no sentinel filter. -/
def parse_genres : Option Str → List Str
  | none => []
  | some s =>
    if s = [] then []
    else if containsChar '|' s then
      ((splitChar '|' s).map pyStrip).filter
        (fun g => g ≠ [] && g ≠ noGenres)
    else
      ((splitChar ',' s).map pyStrip).filter (fun g => g ≠ [])

-- A few sanity lemmas used across claims ------------------------------------

theorem dropWhile_dropWhile (p : Char → Bool) (l : Str) :
    (l.dropWhile p).dropWhile p = l.dropWhile p := by
  induction l with
  | nil => rfl
  | cons c t ih =>
    by_cases h : p c
    · simp [List.dropWhile_cons, h, ih]
    · simp [List.dropWhile_cons, h]

theorem dropWhile_suffix_of (p : Char → Bool) (l : Str) :
    ∃ t, t ++ l.dropWhile p = l := by
  induction l with
  | nil => exact ⟨[], rfl⟩
  | cons c t ih =>
    by_cases h : p c
    · obtain ⟨u, hu⟩ := ih
      exact ⟨c :: u, by simp [List.dropWhile_cons, h, hu]⟩
    · exact ⟨[], by simp [List.dropWhile_cons, h]⟩

theorem dropWhile_head_false (p : Char → Bool) (l : Str) (c : Char) (t : Str)
    (h : l.dropWhile p = c :: t) : p c = false := by
  induction l with
  | nil => simp at h
  | cons a l' ih =>
    by_cases hp : p a
    · rw [List.dropWhile_cons] at h
      simp [hp] at h
      exact ih h
    · rw [List.dropWhile_cons] at h
      simp [hp] at h
      rw [← h.1]
      exact Bool.of_not_eq_true hp

theorem pyStrip_stripRight (u : Str) (hu : u.dropWhile isSpace = u) :
    pyStrip (dropRightWhile isSpace u) = dropRightWhile isSpace u := by
  have h1 : ((u.reverse.dropWhile isSpace).reverse).dropWhile isSpace
      = (u.reverse.dropWhile isSpace).reverse := by
    cases hwr : (u.reverse.dropWhile isSpace).reverse with
    | nil => simp
    | cons c t =>
      obtain ⟨pre, hpre⟩ := dropWhile_suffix_of isSpace u.reverse
      have hus : (u.reverse.dropWhile isSpace).reverse ++ pre.reverse = u := by
        have h2 := congrArg List.reverse hpre
        simpa using h2
      have hu2 : u = c :: (t ++ pre.reverse) := by
        rw [← hus, hwr]; simp
      have hcs : isSpace c = false := by
        apply dropWhile_head_false isSpace u c (t ++ pre.reverse)
        rw [hu]; exact hu2
      simp [List.dropWhile_cons, hcs]
  unfold pyStrip dropRightWhile
  rw [h1]
  simp [dropWhile_dropWhile]

theorem pyStrip_idem (s : Str) : pyStrip (pyStrip s) = pyStrip s :=
  pyStrip_stripRight (s.dropWhile isSpace) (dropWhile_dropWhile isSpace s)

theorem mem_pyStrip_of_mem_map {g : Str} {l : List Str}
    (h : g ∈ l.map pyStrip) : pyStrip g = g := by
  obtain ⟨t, _, rfl⟩ := List.mem_map.1 h
  exact pyStrip_idem t

/-- Elements produced by `parse_genres` are stripped and non-empty. -/
theorem parse_genres_mem (s : Option Str) (g : Str) (hg : g ∈ parse_genres s) :
    pyStrip g = g ∧ g ≠ [] := by
  cases s with
  | none => simp [parse_genres] at hg
  | some s =>
    simp only [parse_genres] at hg
    by_cases h0 : s = []
    · simp [h0] at hg
    · rw [if_neg h0] at hg
      by_cases hp : containsChar '|' s
      · rw [if_pos hp] at hg
        have hmem := List.mem_of_mem_filter hg
        have hcond := List.of_mem_filter hg
        simp only [Bool.and_eq_true, decide_eq_true_eq, ne_eq] at hcond
        exact ⟨mem_pyStrip_of_mem_map hmem, hcond.1⟩
      · rw [if_neg hp] at hg
        have hmem := List.mem_of_mem_filter hg
        have hcond := List.of_mem_filter hg
        simp only [decide_eq_true_eq, ne_eq] at hcond
        exact ⟨mem_pyStrip_of_mem_map hmem, hcond⟩

/-- In the pipe branch the sentinel is filtered out. -/
theorem parse_genres_pipe_no_sentinel (s : Str) (hp : containsChar '|' s = true)
    (g : Str) (hg : g ∈ parse_genres (some s)) : g ≠ noGenres := by
  simp only [parse_genres] at hg
  by_cases h0 : s = []
  · simp [h0] at hg
  · rw [if_neg h0, if_pos hp] at hg
    have hcond := List.of_mem_filter hg
    simp only [Bool.and_eq_true, decide_eq_true_eq, ne_eq] at hcond
    exact hcond.2

/-- C4 as stated: the sentinel never appears in any `parse_genres` output. -/
def C4_claim : Prop :=
  ∀ s : Option Str, noGenres ∉ parse_genres s

/-- C4, counterexample: a raw genre cell that is exactly the sentinel (as in
real MovieLens data for films without genres) contains no `|`, so it takes the
comma branch and the sentinel survives into the output, refuting the claim
that the sentinel "never appears ... regardless of which delimiter convention
the input uses". -/
theorem C4_counterexample : ¬ C4_claim := by
  intro h
  have := h (some noGenres)
  apply this
  decide

/-- C4, amended: every genre produced is a stripped, non-empty name, and the
sentinel is filtered out whenever the input uses the pipe convention; but an
input without a pipe is split on commas with no sentinel filter, so the bare
sentinel string is returned verbatim. -/
theorem C4_amended :
    (∀ (s : Option Str) (g : Str), g ∈ parse_genres s → pyStrip g = g ∧ g ≠ []) ∧
    (∀ s : Str, containsChar '|' s = true →
      ∀ g ∈ parse_genres (some s), g ≠ noGenres) ∧
    parse_genres (some noGenres) = [noGenres] := by
  refine ⟨parse_genres_mem, parse_genres_pipe_no_sentinel, ?_⟩
  decide

/-- C4 amended, witness: the spec's own pipe example, evaluated concretely. -/
theorem C4_amended_witness :
    containsChar '|' ("Action|Adventure|(no genres listed)".data) = true ∧
    ∀ g ∈ parse_genres (some ("Action|Adventure|(no genres listed)".data)),
      g ≠ noGenres := by
  refine ⟨by decide, ?_⟩
  exact C4_amended.2.1 ("Action|Adventure|(no genres listed)".data) (by decide)

-- Title parser (etl.py lines 140-148) ---------------------------------------

/-- Does `s` end with the character `c` (Python `s.endswith(c)`)? -/
def endsWithChar (c : Char) (s : Str) : Bool :=
  match s.reverse with
  | [] => false
  | x :: _ => x == c

/-- Helper for `rsplitOnce`: split the REVERSED string at its first `sep`.
`some (afterRev, beforeRev)` where `afterRev.reverse` is the text after the
last `sep` of the original string. -/
def rsplitOnceRev (sep : Char) : Str → Option (Str × Str)
  | [] => none
  | c :: rest =>
    if c == sep then some ([], rest)
    else
      match rsplitOnceRev sep rest with
      | some (a, b) => some (c :: a, b)
      | none => none

/-- Python `s.rsplit(sep, 1)` for a single-character separator, as the pair
(before last `sep`, after last `sep`); `none` when `sep` does not occur
(Python would return a one-element list, making `parts[1]` raise). -/
def rsplitOnce (sep : Char) (s : Str) : Option (Str × Str) :=
  match rsplitOnceRev sep s.reverse with
  | some (afterRev, beforeRev) => some (beforeRev.reverse, afterRev.reverse)
  | none => none

/-- The title/year parse of the main loop (etl.py lines 140-148): if the raw
title ends with `)`, rsplit on the last `(`; the left part stripped is the
title and `int()` of the right part with ALL trailing `)` stripped is the
year; any raised error (no `(`, or `int()` failure) falls back to the whole
raw string with no year. -/
def parseTitleYear (title_full : Str) : Str × Option Int :=
  if endsWithChar ')' title_full then
    match rsplitOnce '(' title_full with
    | none => (title_full, none)
    | some (left, right) =>
      match pyInt (rstripChar ')' right) with
      | some y => (pyStrip left, some y)
      | none => (title_full, none)
  else (title_full, none)

/-- C6's description of the parse, written from the claim's words: the year
comes from "the text between the last `(` and the final `)`" — i.e. the text
after the last `(` with only the single final `)` removed. -/
def claimTitleParse (s : Str) : Str × Option Int :=
  if endsWithChar ')' s then
    match rsplitOnce '(' s with
    | none => (s, none)
    | some (left, right) =>
      match pyInt right.dropLast with
      | some y => (pyStrip left, some y)
      | none => (s, none)
  else (s, none)

theorem rsplitOnceRev_append (sep : Char) (u v : Str) (hu : sep ∉ u) :
    rsplitOnceRev sep (u ++ sep :: v) = some (u, v) := by
  induction u with
  | nil => simp [rsplitOnceRev]
  | cons c t ih =>
    have hc : (c == sep) = false := by
      simp only [List.mem_cons, not_or] at hu
      simp only [beq_eq_false_iff_ne, ne_eq]
      exact fun h => hu.1 h.symm
    have ht : sep ∉ t := by
      simp only [List.mem_cons, not_or] at hu
      exact hu.2
    simp [rsplitOnceRev, hc, ih ht]

theorem rsplitOnceRev_none (sep : Char) (l : Str) (h : sep ∉ l) :
    rsplitOnceRev sep l = none := by
  induction l with
  | nil => rfl
  | cons c t ih =>
    have hc : (c == sep) = false := by
      simp only [List.mem_cons, not_or] at h
      simp only [beq_eq_false_iff_ne, ne_eq]
      exact fun h2 => h.1 h2.symm
    have ht : sep ∉ t := by
      simp only [List.mem_cons, not_or] at h
      exact h.2
    simp [rsplitOnceRev, hc, ih ht]

theorem rsplitOnce_last (a b : Str) (hb : '(' ∉ b) :
    rsplitOnce '(' (a ++ '(' :: b) = some (a, b) := by
  unfold rsplitOnce
  rw [show (a ++ '(' :: b).reverse = b.reverse ++ '(' :: a.reverse by simp]
  rw [rsplitOnceRev_append '(' b.reverse a.reverse (by simpa using hb)]
  simp

theorem rsplitOnce_of_no_paren (s : Str) (h : containsChar '(' s = false) :
    rsplitOnce '(' s = none := by
  unfold rsplitOnce
  rw [rsplitOnceRev_none '(' s.reverse]
  intro hm
  rw [List.mem_reverse] at hm
  unfold containsChar at h
  rw [List.any_eq_false] at h
  exact absurd (by simp : ('(' == '(') = true) (by simpa using h '(' hm)

/-- C6, counterexample: for `"X (5))"` the text between the last `(` and the
final `)` is `"5)"`, which is not an integer, so the claim requires the whole
string with no year; the code instead strips every trailing `)` and returns
title `"X"` with year `5`. -/
theorem C6_counterexample :
    parseTitleYear ("X (5))".data) = ("X".data, (some 5 : Option Int)) ∧
    claimTitleParse ("X (5))".data) = ("X (5))".data, (none : Option Int)) ∧
    parseTitleYear ("X (5))".data) ≠ claimTitleParse ("X (5))".data) := by
  refine ⟨by decide, by decide, by decide⟩

/-- C6, amended: same as the claim except that the parenthetical content is
the text after the last `(` with ALL trailing `)` characters stripped (not
just the final one).  With that reading, the parse never fails: a string not
ending in `)`, or with no `(`, or whose stripped parenthetical content is not
an integer, yields the whole input with no year; otherwise the left portion
stripped plus that integer. -/
theorem C6_amended :
    (∀ s : Str, endsWithChar ')' s = false → parseTitleYear s = (s, none)) ∧
    (∀ s : Str, containsChar '(' s = false → parseTitleYear s = (s, none)) ∧
    (∀ (a b : Str) (y : Int), '(' ∉ b →
      endsWithChar ')' (a ++ '(' :: b) = true →
      pyInt (rstripChar ')' b) = some y →
      parseTitleYear (a ++ '(' :: b) = (pyStrip a, some y)) ∧
    (∀ a b : Str, '(' ∉ b →
      endsWithChar ')' (a ++ '(' :: b) = true →
      pyInt (rstripChar ')' b) = none →
      parseTitleYear (a ++ '(' :: b) = (a ++ '(' :: b, none)) := by
  refine ⟨?_, ?_, ?_, ?_⟩
  · intro s h
    unfold parseTitleYear
    rw [h]
    simp
  · intro s h
    unfold parseTitleYear
    by_cases he : endsWithChar ')' s
    · rw [he, rsplitOnce_of_no_paren s h]
      simp
    · simp [he]
  · intro a b y hb he hi
    unfold parseTitleYear
    rw [he, rsplitOnce_last a b hb]
    simp [hi]
  · intro a b hb he hi
    unfold parseTitleYear
    rw [he, rsplitOnce_last a b hb]
    simp [hi]

/-- C6 amended, witness: the spec's example `"Toy Story (1995)"`. -/
theorem C6_amended_witness :
    '(' ∉ ("1995)".data) ∧
    endsWithChar ')' ("Toy Story ".data ++ '(' :: "1995)".data) = true ∧
    pyInt (rstripChar ')' ("1995)".data)) = some 1995 ∧
    parseTitleYear ("Toy Story ".data ++ '(' :: "1995)".data) =
      (pyStrip ("Toy Story ".data), some 1995) := by
  refine ⟨by decide, by decide, by decide, ?_⟩
  exact C6_amended.2.2.1 ("Toy Story ".data) ("1995)".data) 1995
    (by decide) (by decide) (by decide)

-- Genre merging (etl.py line 179) --------------------------------------------

/-- One insertion step of `dict.fromkeys`: a key already present keeps its
original position, a new key is appended. -/
def insertKey (acc : List Str) (x : Str) : List Str :=
  if x ∈ acc then acc else acc ++ [x]

/-- `list(dict.fromkeys(l))`: iterate the keys left to right into an
insertion-ordered dict, then list the keys. -/
def dictFromKeys (l : List Str) : List Str := l.foldl insertKey []

/-- The combined genre list of the main loop (etl.py line 179):
`list(dict.fromkeys(ml_genres + omdb_genres_list))`. -/
def combined_genres (ml om : List Str) : List Str := dictFromKeys (ml ++ om)

/-- Deduplication keeping only the first occurrence of each name, written
from the spec's words (keep the head, drop its later duplicates, recurse). -/
def firstOccurDedup : List Str → List Str
  | [] => []
  | x :: xs => x :: firstOccurDedup (xs.filter (fun y => y ≠ x))
termination_by l => l.length
decreasing_by
  simp only [List.length_cons]
  exact Nat.lt_succ_of_le (List.length_filter_le _ _)

theorem firstOccurDedup_nil : firstOccurDedup [] = [] := by
  rw [firstOccurDedup.eq_def]

theorem firstOccurDedup_cons (x : Str) (xs : List Str) :
    firstOccurDedup (x :: xs) = x :: firstOccurDedup (xs.filter (fun y => y ≠ x)) := by
  rw [firstOccurDedup.eq_def]

theorem sublist_firstOccurDedup (l : List Str) : (firstOccurDedup l).Sublist l := by
  induction l using firstOccurDedup.induct with
  | case1 => simp [firstOccurDedup_nil]
  | case2 x xs ih =>
    rw [firstOccurDedup_cons]
    exact List.Sublist.cons₂ x (ih.trans (List.filter_sublist xs))

theorem nodup_firstOccurDedup (l : List Str) : (firstOccurDedup l).Nodup := by
  induction l using firstOccurDedup.induct with
  | case1 => simp [firstOccurDedup_nil]
  | case2 x xs ih =>
    rw [firstOccurDedup_cons]
    refine List.Nodup.cons ?_ ih
    intro hx
    have hmem := (sublist_firstOccurDedup _).subset hx
    have := List.of_mem_filter hmem
    simp at this

theorem mem_firstOccurDedup (l : List Str) (a : Str) :
    a ∈ firstOccurDedup l ↔ a ∈ l := by
  induction l using firstOccurDedup.induct with
  | case1 => simp [firstOccurDedup_nil]
  | case2 x xs ih =>
    rw [firstOccurDedup_cons]
    simp only [List.mem_cons, ih, List.mem_filter, decide_eq_true_eq, ne_eq]
    constructor
    · rintro (rfl | ⟨h, _⟩)
      · exact Or.inl rfl
      · exact Or.inr h
    · rintro (rfl | h)
      · exact Or.inl rfl
      · by_cases hax : a = x
        · exact Or.inl hax
        · exact Or.inr ⟨h, hax⟩

theorem foldl_insertKey (l acc : List Str) :
    l.foldl insertKey acc = acc ++ firstOccurDedup (l.filter (fun x => x ∉ acc)) := by
  induction l generalizing acc with
  | nil => simp [firstOccurDedup_nil]
  | cons x xs ih =>
    rw [List.foldl_cons]
    by_cases hx : x ∈ acc
    · rw [show insertKey acc x = acc from if_pos hx, ih]
      congr 2
      rw [List.filter_cons]
      simp [hx]
    · rw [show insertKey acc x = acc ++ [x] from if_neg hx, ih]
      rw [List.filter_cons,
        if_pos (show decide (x ∉ acc) = true by simpa using hx)]
      rw [firstOccurDedup_cons, List.filter_filter, List.append_assoc]
      congr 1
      rw [List.singleton_append]
      congr 2
      apply List.filter_congr
      intro a _
      by_cases hax : a = x
      · subst hax
        simp
      · by_cases ha : a ∈ acc <;> simp [ha, hax]

theorem dictFromKeys_eq (l : List Str) : dictFromKeys l = firstOccurDedup l := by
  unfold dictFromKeys
  rw [foldl_insertKey]
  simp only [List.nil_append]
  congr 1
  rw [List.filter_eq_self]
  intro a _
  simp

/-- C5: the merged genre list is the concatenation catalog-then-API,
deduplicated keeping only the first occurrence of each name; its elements are
pairwise distinct and appear in first-occurrence (sublist) order, and it
contains exactly the names of the two inputs. -/
theorem C5_combined_genres (ml om : List Str) :
    combined_genres ml om = firstOccurDedup (ml ++ om) ∧
    (combined_genres ml om).Nodup ∧
    (combined_genres ml om).Sublist (ml ++ om) ∧
    (∀ x, x ∈ combined_genres ml om ↔ x ∈ ml ++ om) := by
  have he : combined_genres ml om = firstOccurDedup (ml ++ om) :=
    dictFromKeys_eq (ml ++ om)
  refine ⟨he, ?_, ?_, ?_⟩
  · rw [he]; exact nodup_firstOccurDedup _
  · rw [he]; exact sublist_firstOccurDedup _
  · intro x; rw [he]; exact mem_firstOccurDedup _ x

-- Metadata cache and fetcher (etl.py lines 24-47) ----------------------------

/-- The structured OMDb response, with the fields the pipeline reads.
Every field is optional, mirroring `dict.get` on the parsed JSON. -/
structure OmdbRecord where
  Response : Option Str
  Error : Option Str
  imdbID : Option Str
  Runtime : Option Str
  Plot : Option Str
  BoxOffice : Option Str
  Genre : Option Str
  Director : Option Str
deriving DecidableEq

/-- A record with no fields set. -/
def OmdbRecord.blank : OmdbRecord := ⟨none, none, none, none, none, none, none, none⟩

/-- The on-disk cache directory: a map from file name to stored record. -/
def Cache := Str → Option OmdbRecord

/-- Writing a cache file (overwrites any previous content). -/
def cachePut (c : Cache) (k : Str) (v : OmdbRecord) : Cache :=
  fun k2 => if k2 = k then some v else c k2

/-- The empty cache directory. -/
def emptyCache : Cache := fun _ => none

/-- The cache file name of etl.py lines 29-30:
`safe_name = f"{title}__{year}" if year else title` (note `if year` is falsy
for both `None` and `0`), then `safe_name.replace("/", "_") + ".json"`. -/
def cacheKey (title : Str) (year : Option Int) : Str :=
  let safe_name : Str :=
    match year with
    | some y => if y ≠ 0 then title ++ "__".data ++ intToStr y else title
    | none => title
  (safe_name.map (fun ch => if ch == '/' then '_' else ch)) ++ ".json".data

/-- The synthetic record returned after four failed attempts (etl.py line 47). -/
def failureRecord : OmdbRecord :=
  { OmdbRecord.blank with
    Response := some ("False".data), Error := some ("Failed after retries".data) }

/-- The retry loop of etl.py lines 38-46: each element of the list is the
outcome of one attempt (`none` = the request or JSON parse raised), and the
result carries the record, the cache after the loop, and the number of
attempts performed.  On a successful attempt the response is written to the
cache and returned immediately. -/
def runAttempts (key : Str) (c : Cache) : List (Option OmdbRecord) → OmdbRecord × Cache × Nat
  | [] => (failureRecord, c, 0)
  | none :: rest =>
    let r := runAttempts key c rest
    (r.1, r.2.1, r.2.2 + 1)
  | some data :: _ => (data, cachePut c key data, 1)

/-- `omdb_lookup` of etl.py lines 27-47: return the cached record when the
cache file exists, otherwise run up to 4 attempts supplied by the network
oracle. -/
def omdb_lookup (c : Cache) (oracle : Nat → Option OmdbRecord)
    (title : Str) (year : Option Int) : OmdbRecord × Cache × Nat :=
  let key := cacheKey title year
  match c key with
  | some cached => (cached, c, 0)
  | none => runAttempts key c ((List.range 4).map oracle)

theorem runAttempts_count_le (key : Str) (c : Cache) (l : List (Option OmdbRecord)) :
    (runAttempts key c l).2.2 ≤ l.length := by
  induction l with
  | nil => simp [runAttempts]
  | cons a rest ih =>
    cases a with
    | none => simpa [runAttempts] using Nat.succ_le_succ ih
    | some d => simp [runAttempts]

theorem runAttempts_count_pos (key : Str) (c : Cache) (a : Option OmdbRecord)
    (rest : List (Option OmdbRecord)) : 1 ≤ (runAttempts key c (a :: rest)).2.2 := by
  cases a with
  | none => simp [runAttempts]
  | some d => simp [runAttempts]

theorem range_four : List.range 4 = [0, 1, 2, 3] := by decide

/-- C2: for a key absent from the cache the fetch performs at most 4 network
attempts; if all four raise, it returns (rather than raises) the synthetic
`Response = "False"` record, writes nothing to the cache, and therefore a
later fetch for the same key performs at least one network attempt again. -/
theorem C2_retry_exhaustion (c : Cache) (oracle : Nat → Option OmdbRecord)
    (title : Str) (year : Option Int)
    (hmiss : c (cacheKey title year) = none) :
    (omdb_lookup c oracle title year).2.2 ≤ 4 ∧
    ((∀ i, i < 4 → oracle i = none) →
      omdb_lookup c oracle title year = (failureRecord, c, 4) ∧
      failureRecord.Response = some ("False".data) ∧
      ∀ oracle2 : Nat → Option OmdbRecord,
        1 ≤ (omdb_lookup c oracle2 title year).2.2) := by
  constructor
  · simp only [omdb_lookup, hmiss]
    have h := runAttempts_count_le (cacheKey title year) c ((List.range 4).map oracle)
    simpa using h
  · intro hall
    have h0 := hall 0 (by omega)
    have h1 := hall 1 (by omega)
    have h2 := hall 2 (by omega)
    have h3 := hall 3 (by omega)
    refine ⟨?_, rfl, ?_⟩
    · simp only [omdb_lookup, hmiss, range_four, List.map_cons, List.map_nil,
        h0, h1, h2, h3]
      simp [runAttempts]
    · intro oracle2
      simp only [omdb_lookup, hmiss, range_four, List.map_cons, List.map_nil]
      exact runAttempts_count_pos _ _ _ _

/-- C2, witness: empty cache, an oracle whose every attempt raises. -/
theorem C2_retry_exhaustion_witness :
    emptyCache (cacheKey ("Heat".data) none) = none ∧
    ((omdb_lookup emptyCache (fun _ => none) ("Heat".data) none).2.2 ≤ 4 ∧
    ((∀ i, i < 4 → (fun _ => (none : Option OmdbRecord)) i = none) →
      omdb_lookup emptyCache (fun _ => none) ("Heat".data) none
        = (failureRecord, emptyCache, 4) ∧
      failureRecord.Response = some ("False".data) ∧
      ∀ oracle2 : Nat → Option OmdbRecord,
        1 ≤ (omdb_lookup emptyCache oracle2 ("Heat".data) none).2.2)) :=
  ⟨rfl, C2_retry_exhaustion emptyCache (fun _ => none) ("Heat".data) none rfl⟩

/-- C3: on a cache hit the cached record is returned with no network attempt;
on a miss, the first attempt that yields a structured response (any record,
"not found" included) is written to the cache under the key and returned, and
a subsequent fetch for the same key returns that same record with zero
network attempts. -/
theorem C3_cache_hit_and_store (title : Str) (year : Option Int) :
    (∀ (c : Cache) (oracle : Nat → Option OmdbRecord) (r : OmdbRecord),
        c (cacheKey title year) = some r →
        omdb_lookup c oracle title year = (r, c, 0)) ∧
    (∀ (c : Cache) (oracle : Nat → Option OmdbRecord) (i : Nat) (d : OmdbRecord),
        c (cacheKey title year) = none →
        i < 4 → (∀ j, j < i → oracle j = none) → oracle i = some d →
        (omdb_lookup c oracle title year).1 = d ∧
        (omdb_lookup c oracle title year).2.1 (cacheKey title year) = some d ∧
        (omdb_lookup c oracle title year).2.2 = i + 1 ∧
        (∀ oracle2 : Nat → Option OmdbRecord,
          omdb_lookup ((omdb_lookup c oracle title year).2.1) oracle2 title year
            = (d, (omdb_lookup c oracle title year).2.1, 0))) := by
  constructor
  · intro c oracle r h
    simp [omdb_lookup, h]
  · intro c oracle i d hmiss hi hj hsucc
    have hres : omdb_lookup c oracle title year
        = (d, cachePut c (cacheKey title year) d, i + 1) := by
      interval_cases i
      · simp only [omdb_lookup, hmiss, range_four, List.map_cons, List.map_nil, hsucc]
        simp [runAttempts]
      · have h0 := hj 0 (by omega)
        simp only [omdb_lookup, hmiss, range_four, List.map_cons, List.map_nil,
          h0, hsucc]
        simp [runAttempts]
      · have h0 := hj 0 (by omega)
        have h1 := hj 1 (by omega)
        simp only [omdb_lookup, hmiss, range_four, List.map_cons, List.map_nil,
          h0, h1, hsucc]
        simp [runAttempts]
      · have h0 := hj 0 (by omega)
        have h1 := hj 1 (by omega)
        have h2 := hj 2 (by omega)
        simp only [omdb_lookup, hmiss, range_four, List.map_cons, List.map_nil,
          h0, h1, h2, hsucc]
        simp [runAttempts]
    rw [hres]
    refine ⟨rfl, ?_, rfl, ?_⟩
    · simp [cachePut]
    · intro oracle2
      simp [omdb_lookup, cachePut]

/-- C3, witness: a cache holding a record for "Heat" returns it untouched. -/
theorem C3_cache_hit_and_store_witness :
    (cachePut emptyCache (cacheKey ("Heat".data) none) failureRecord)
      (cacheKey ("Heat".data) none) = some failureRecord ∧
    omdb_lookup (cachePut emptyCache (cacheKey ("Heat".data) none) failureRecord)
      (fun _ => none) ("Heat".data) none
      = (failureRecord, cachePut emptyCache (cacheKey ("Heat".data) none) failureRecord, 0) := by
  have h : (cachePut emptyCache (cacheKey ("Heat".data) none) failureRecord)
      (cacheKey ("Heat".data) none) = some failureRecord := by
    simp [cachePut]
  exact ⟨h, (C3_cache_hit_and_store ("Heat".data) none).1 _ (fun _ => none) failureRecord h⟩

/-- C10: the cache key function is not injective — the distinct inputs
(title `"T__1995"`, no year) and (title `"T"`, year 1995) share one cache
file name, and a fetch for the second input returns whatever record was
cached under the first, with zero network attempts. -/
theorem C10_cacheKey_collision :
    cacheKey ("T__1995".data) none = cacheKey ("T".data) (some 1995) ∧
    (("T__1995".data, (none : Option Int)) ≠ (("T".data : Str), some (1995 : Int))) ∧
    (∀ oracle : Nat → Option OmdbRecord,
      (omdb_lookup (cachePut emptyCache (cacheKey ("T__1995".data) none) OmdbRecord.blank)
        oracle ("T".data) (some 1995)).1 = OmdbRecord.blank ∧
      (omdb_lookup (cachePut emptyCache (cacheKey ("T__1995".data) none) OmdbRecord.blank)
        oracle ("T".data) (some 1995)).2.2 = 0) := by
  refine ⟨by decide, by decide, ?_⟩
  intro oracle
  have hk : cacheKey ("T".data) (some 1995) = cacheKey ("T__1995".data) none := by decide
  have hc : (cachePut emptyCache (cacheKey ("T__1995".data) none) OmdbRecord.blank)
      (cacheKey ("T".data) (some 1995)) = some OmdbRecord.blank := by
    rw [hk]
    simp [cachePut]
  constructor <;> simp [omdb_lookup, hc]

-- Movies table and upsert (etl.py lines 70-88) -------------------------------

/-- One row of the `movies` table (schema modelled from the spec: columns id,
movie_id, title, year, runtime_minutes, plot, box_office; `schema.sql` is not
part of the sources). -/
structure MovieRow where
  id : Nat
  movie_id : Str
  title : Str
  year : Option Int
  runtime_minutes : Option Int
  plot : Option Str
  box_office : Option Str
deriving DecidableEq

/-- The `movies` table plus SQLite's next autoincrement row id. -/
structure MoviesTable where
  rows : List MovieRow
  nextId : Nat
deriving DecidableEq

/-- The WHERE clause of etl.py line 73: `movie_id = :mid OR title = :title`. -/
def movieMatches (mid t : Str) (r : MovieRow) : Bool :=
  r.movie_id == mid || r.title == t

/-- The UPDATE of etl.py lines 77-80: overwrite exactly the four mutable
fields. -/
def setMutable (y rt : Option Int) (p b : Option Str) (x : MovieRow) : MovieRow :=
  { x with year := y, runtime_minutes := rt, plot := p, box_office := b }

/-- Apply the UPDATE to every row whose id matches (`WHERE id = :id`). -/
def updRows (rid : Nat) (y rt : Option Int) (p b : Option Str)
    (l : List MovieRow) : List MovieRow :=
  l.map (fun x => if x.id == rid then setMutable y rt p b x else x)

/-- `upsert_movie` of etl.py lines 70-88: SELECT the first row matching by
external id OR exact title; if found, UPDATE its mutable fields (by row id)
and return its id; else INSERT a new row and return `lastrowid`. -/
def upsert_movie (db : MoviesTable) (mid t : Str) (y rt : Option Int)
    (p b : Option Str) : Nat × MoviesTable :=
  match db.rows.find? (movieMatches mid t) with
  | some r => (r.id, { db with rows := updRows r.id y rt p b db.rows })
  | none =>
    (db.nextId,
      { rows := db.rows ++ [⟨db.nextId, mid, t, y, rt, p, b⟩],
        nextId := db.nextId + 1 })

theorem filter_map_of_pres {α : Type} (p : α → Bool) (f : α → α)
    (hf : ∀ x, p (f x) = p x) (l : List α) :
    (l.map f).filter p = (l.filter p).map f := by
  induction l with
  | nil => rfl
  | cons a tl ih =>
    simp only [List.map_cons, List.filter_cons, hf a]
    cases hpa : p a <;> simp [hpa, ih]

theorem find?_map_of_pres {α : Type} (p : α → Bool) (f : α → α)
    (hf : ∀ x, p (f x) = p x) (l : List α) :
    (l.map f).find? p = (l.find? p).map f := by
  induction l with
  | nil => rfl
  | cons a tl ih =>
    simp only [List.map_cons, List.find?_cons, hf a]
    cases hpa : p a <;> simp [hpa, ih]

theorem movieMatches_update (mid t : Str) (y rt : Option Int) (p b : Option Str)
    (rid : Nat) (x : MovieRow) :
    movieMatches mid t (if x.id == rid then setMutable y rt p b x else x)
      = movieMatches mid t x := by
  cases h : x.id == rid <;> simp [h, movieMatches, setMutable]

theorem filter_updRows (mid t : Str) (rid : Nat) (y rt : Option Int)
    (p b : Option Str) (l : List MovieRow) :
    (updRows rid y rt p b l).filter (movieMatches mid t)
      = (l.filter (movieMatches mid t)).map
          (fun x => if x.id == rid then setMutable y rt p b x else x) :=
  filter_map_of_pres _ _ (movieMatches_update mid t y rt p b rid) l

theorem find?_updRows (mid t : Str) (rid : Nat) (y rt : Option Int)
    (p b : Option Str) (l : List MovieRow) :
    (updRows rid y rt p b l).find? (movieMatches mid t)
      = (l.find? (movieMatches mid t)).map
          (fun x => if x.id == rid then setMutable y rt p b x else x) :=
  find?_map_of_pres _ _ (movieMatches_update mid t y rt p b rid) l

theorem filter_eq_singleton_of_find? {α : Type} (p : α → Bool) (l : List α) (r : α)
    (hf : l.find? p = some r) (hlen : (l.filter p).length ≤ 1) :
    l.filter p = [r] := by
  have hmem : r ∈ l.filter p :=
    List.mem_filter.2 ⟨List.mem_of_find?_eq_some hf, List.find?_some hf⟩
  cases hl : l.filter p with
  | nil => rw [hl] at hmem; simp at hmem
  | cons a tl =>
    cases tl with
    | nil =>
      rw [hl] at hmem
      simp only [List.mem_singleton] at hmem
      rw [hmem]
    | cons b t2 =>
      rw [hl] at hlen
      simp at hlen

/-- C1: `upsert_movie` looks up a row by external id OR exact title (first
match wins); on a hit it overwrites only year/runtime/plot/box_office of that
row and returns its id, on a miss it inserts a new row and returns the fresh
id; and — on any table where the matched identity has at most one row, the
documented identity invariant — calling it twice with the same identity and a
changed runtime leaves exactly one matching row whose runtime is the second
value and whose id both calls returned. -/
theorem C1_upsert_movie (db : MoviesTable) (mid t : Str) (y : Option Int)
    (rt1 rt2 : Option Int) (p1 p2 b1 b2 : Option Str)
    (hinv : (db.rows.filter (movieMatches mid t)).length ≤ 1) :
    (∀ r0, db.rows.find? (movieMatches mid t) = some r0 →
      (upsert_movie db mid t y rt1 p1 b1).1 = r0.id ∧
      (upsert_movie db mid t y rt1 p1 b1).2.rows.length = db.rows.length ∧
      setMutable y rt1 p1 b1 r0 ∈ (upsert_movie db mid t y rt1 p1 b1).2.rows ∧
      ∀ x ∈ db.rows, x.id ≠ r0.id → x ∈ (upsert_movie db mid t y rt1 p1 b1).2.rows) ∧
    (db.rows.find? (movieMatches mid t) = none →
      (upsert_movie db mid t y rt1 p1 b1).1 = db.nextId ∧
      (upsert_movie db mid t y rt1 p1 b1).2.rows
        = db.rows ++ [⟨db.nextId, mid, t, y, rt1, p1, b1⟩]) ∧
    ((upsert_movie (upsert_movie db mid t y rt1 p1 b1).2 mid t y rt2 p2 b2).1
        = (upsert_movie db mid t y rt1 p1 b1).1 ∧
      ∃ r, (upsert_movie (upsert_movie db mid t y rt1 p1 b1).2 mid t y rt2 p2 b2).2.rows.filter
              (movieMatches mid t) = [r] ∧
        r.runtime_minutes = rt2 ∧
        r.id = (upsert_movie db mid t y rt1 p1 b1).1) := by
  refine ⟨?_, ?_, ?_⟩
  · intro r0 hfind
    simp only [upsert_movie, hfind]
    refine ⟨by simp, by simp [updRows], ?_, ?_⟩
    · have hr0 : r0 ∈ db.rows := List.mem_of_find?_eq_some hfind
      have he : (fun x => if x.id == r0.id then setMutable y rt1 p1 b1 x else x) r0
          = setMutable y rt1 p1 b1 r0 := by simp
      unfold updRows
      rw [← he]
      exact List.mem_map_of_mem _ hr0
    · intro x hx hne
      have he : (fun z => if z.id == r0.id then setMutable y rt1 p1 b1 z else z) x = x := by
        simp [hne]
      unfold updRows
      rw [← he]
      exact List.mem_map_of_mem _ hx
  · intro hfind
    simp [upsert_movie, hfind]
  · cases hfind : db.rows.find? (movieMatches mid t) with
    | some r0 =>
      have hfil : db.rows.filter (movieMatches mid t) = [r0] :=
        filter_eq_singleton_of_find? _ _ _ hfind hinv
      have hu1 : upsert_movie db mid t y rt1 p1 b1
          = (r0.id, { db with rows := updRows r0.id y rt1 p1 b1 db.rows }) := by
        simp only [upsert_movie, hfind]
      rw [hu1]
      have hfind1 : (updRows r0.id y rt1 p1 b1 db.rows).find? (movieMatches mid t)
          = some (setMutable y rt1 p1 b1 r0) := by
        rw [find?_updRows, hfind]
        simp
      have hid : (setMutable y rt1 p1 b1 r0).id = r0.id := rfl
      have hu2 : upsert_movie { db with rows := updRows r0.id y rt1 p1 b1 db.rows }
            mid t y rt2 p2 b2
          = (r0.id, { db with rows := updRows r0.id y rt2 p2 b2 (updRows r0.id y rt1 p1 b1 db.rows) }) := by
        simp only [upsert_movie, hfind1, hid]
      rw [hu2]
      refine ⟨rfl, ⟨setMutable y rt2 p2 b2 (setMutable y rt1 p1 b1 r0), ?_, rfl, hid⟩⟩
      rw [filter_updRows, filter_updRows, hfil]
      simp [setMutable]
    | none =>
      have hfil : db.rows.filter (movieMatches mid t) = [] := by
        rw [List.filter_eq_nil_iff]
        exact List.find?_eq_none.1 hfind
      have hu1 : upsert_movie db mid t y rt1 p1 b1
          = (db.nextId,
             { rows := db.rows ++ [⟨db.nextId, mid, t, y, rt1, p1, b1⟩],
               nextId := db.nextId + 1 }) := by
        simp only [upsert_movie, hfind]
      rw [hu1]
      have hmatch : movieMatches mid t (⟨db.nextId, mid, t, y, rt1, p1, b1⟩ : MovieRow) = true := by
        simp [movieMatches]
      have hfind1 : (db.rows ++ [(⟨db.nextId, mid, t, y, rt1, p1, b1⟩ : MovieRow)]).find?
          (movieMatches mid t) = some (⟨db.nextId, mid, t, y, rt1, p1, b1⟩ : MovieRow) := by
        rw [List.find?_append, hfind, Option.none_or]
        simp [List.find?_cons, hmatch]
      have hu2 : upsert_movie
            { rows := db.rows ++ [(⟨db.nextId, mid, t, y, rt1, p1, b1⟩ : MovieRow)],
              nextId := db.nextId + 1 } mid t y rt2 p2 b2
          = (db.nextId,
             { rows := updRows db.nextId y rt2 p2 b2 (db.rows ++ [(⟨db.nextId, mid, t, y, rt1, p1, b1⟩ : MovieRow)]),
               nextId := db.nextId + 1 }) := by
        simp only [upsert_movie, hfind1]
      rw [hu2]
      refine ⟨rfl, ⟨setMutable y rt2 p2 b2 (⟨db.nextId, mid, t, y, rt1, p1, b1⟩ : MovieRow), ?_, rfl, rfl⟩⟩
      rw [filter_updRows, List.filter_append, hfil]
      simp [hmatch, setMutable]

/-- C1, witness: starting from an empty table, two upserts for the same
identity with runtimes 90 then 100. -/
theorem C1_upsert_movie_witness :
    ((⟨[], 1⟩ : MoviesTable).rows.filter (movieMatches ("tt1".data) ("T".data))).length ≤ 1 ∧
    ((upsert_movie (upsert_movie ⟨[], 1⟩ ("tt1".data) ("T".data) (some 1995) (some 90) none none).2
        ("tt1".data) ("T".data) (some 1995) (some 100) none none).1
      = (upsert_movie ⟨[], 1⟩ ("tt1".data) ("T".data) (some 1995) (some 90) none none).1 ∧
      ∃ r, (upsert_movie (upsert_movie ⟨[], 1⟩ ("tt1".data) ("T".data) (some 1995) (some 90) none none).2
              ("tt1".data) ("T".data) (some 1995) (some 100) none none).2.rows.filter
              (movieMatches ("tt1".data) ("T".data)) = [r] ∧
        r.runtime_minutes = some 100 ∧
        r.id = (upsert_movie ⟨[], 1⟩ ("tt1".data) ("T".data) (some 1995) (some 90) none none).1) :=
  ⟨by decide,
    (C1_upsert_movie ⟨[], 1⟩ ("tt1".data) ("T".data) (some 1995) (some 90) (some 100)
      none none none none (by decide)).2.2⟩

-- Join tables (etl.py lines 97-114) ------------------------------------------

/-- Errors the store can raise: `integrity` models sqlalchemy's
`IntegrityError` — under the spec-modelled schema (unique pair on the join
tables, SQLite defaults) raised exactly when the inserted pair already
exists — and `operational` models any other store/connectivity error, which
sqlalchemy raises outside the `IntegrityError` class. -/
inductive DbError
  | integrity
  | operational
deriving DecidableEq

/-- A raw INSERT into a join table with a uniqueness constraint on the pair;
`fault` injects a non-constraint store failure. -/
def insertJoinRow (tbl : List (Nat × Nat)) (p : Nat × Nat) (fault : Option DbError) :
    Except DbError (List (Nat × Nat)) :=
  match fault with
  | some e => Except.error e
  | none => if p ∈ tbl then Except.error DbError.integrity else Except.ok (tbl ++ [p])

/-- `link_movie_genre` of etl.py lines 97-101: INSERT, swallowing
`IntegrityError` (already linked) as a no-op; everything else propagates. -/
def link_movie_genre (tbl : List (Nat × Nat)) (m g : Nat) (fault : Option DbError) :
    Except DbError (List (Nat × Nat)) :=
  match insertJoinRow tbl (m, g) fault with
  | Except.ok t2 => Except.ok t2
  | Except.error DbError.integrity => Except.ok tbl
  | Except.error e => Except.error e

/-- `link_movie_director` of etl.py lines 110-114: same behavior on the
`movie_directors` table. -/
def link_movie_director (tbl : List (Nat × Nat)) (m d : Nat) (fault : Option DbError) :
    Except DbError (List (Nat × Nat)) :=
  match insertJoinRow tbl (m, d) fault with
  | Except.ok t2 => Except.ok t2
  | Except.error DbError.integrity => Except.ok tbl
  | Except.error e => Except.error e

theorem link_movie_genre_spec (tbl : List (Nat × Nat)) (m g : Nat)
    (hconstraint : List.count (m, g) tbl ≤ 1) :
    ∃ t1, link_movie_genre tbl m g none = Except.ok t1 ∧
      link_movie_genre t1 m g none = Except.ok t1 ∧
      List.count (m, g) t1 = 1 := by
  by_cases hm : (m, g) ∈ tbl
  · refine ⟨tbl, ?_, ?_, ?_⟩
    · simp [link_movie_genre, insertJoinRow, hm]
    · simp [link_movie_genre, insertJoinRow, hm]
    · have h1 : 0 < List.count (m, g) tbl := List.count_pos_iff.2 hm
      omega
  · refine ⟨tbl ++ [(m, g)], ?_, ?_, ?_⟩
    · simp [link_movie_genre, insertJoinRow, hm]
    · simp [link_movie_genre, insertJoinRow]
    · rw [List.count_append]
      have h0 : List.count (m, g) tbl = 0 := List.count_eq_zero.2 hm
      simp [h0, List.count_singleton]

/-- C7: for either join table, a duplicate-pair insert is rejected by the
uniqueness constraint, that rejection is swallowed as a no-op success, and
double-linking leaves exactly one persisted row for the pair; any other
store error propagates out of the link call. -/
theorem C7_link_idempotent (tbl : List (Nat × Nat)) (m g : Nat)
    (hconstraint : List.count (m, g) tbl ≤ 1) :
    (∃ t1, link_movie_genre tbl m g none = Except.ok t1 ∧
      link_movie_genre t1 m g none = Except.ok t1 ∧
      List.count (m, g) t1 = 1) ∧
    link_movie_genre tbl m g (some DbError.operational)
      = Except.error DbError.operational ∧
    (∃ t1, link_movie_director tbl m g none = Except.ok t1 ∧
      link_movie_director t1 m g none = Except.ok t1 ∧
      List.count (m, g) t1 = 1) ∧
    link_movie_director tbl m g (some DbError.operational)
      = Except.error DbError.operational := by
  have hsame : link_movie_director = link_movie_genre := rfl
  refine ⟨link_movie_genre_spec tbl m g hconstraint, rfl, ?_, rfl⟩
  rw [hsame]
  exact link_movie_genre_spec tbl m g hconstraint

/-- C7, witness: linking (movie 1, genre 2) twice into an empty join table. -/
theorem C7_link_idempotent_witness :
    List.count (1, 2) ([] : List (Nat × Nat)) ≤ 1 ∧
    ((∃ t1, link_movie_genre [] 1 2 none = Except.ok t1 ∧
      link_movie_genre t1 1 2 none = Except.ok t1 ∧
      List.count (1, 2) t1 = 1) ∧
    link_movie_genre [] 1 2 (some DbError.operational)
      = Except.error DbError.operational ∧
    (∃ t1, link_movie_director [] 1 2 none = Except.ok t1 ∧
      link_movie_director t1 1 2 none = Except.ok t1 ∧
      List.count (1, 2) t1 = 1) ∧
    link_movie_director [] 1 2 (some DbError.operational)
      = Except.error DbError.operational) :=
  ⟨by decide, C7_link_idempotent [] 1 2 (by decide)⟩

-- Ratings loader (etl.py lines 116-122) --------------------------------------

/-- One row of the `ratings` table; the float rating is modelled as a
rational, which the pipeline only ever stores and copies. -/
structure RatingRow where
  user_id : Int
  movie_ml_id : Int
  rating : Rat
  timestamp : Int
deriving DecidableEq

/-- Do two rows share the (user_id, movie_ml_id) primary key? -/
def sameRatingKey (a b : RatingRow) : Bool :=
  a.user_id == b.user_id && a.movie_ml_id == b.movie_ml_id

/-- Does row `r` have primary key `(u, m)`? -/
def ratingKey (u m : Int) (r : RatingRow) : Bool :=
  r.user_id == u && r.movie_ml_id == m

/-- SQLite `INSERT OR REPLACE` (etl.py lines 119-122): delete any row with
the same primary key, then insert the new row. -/
def insert_or_replace_rating (tbl : List RatingRow) (row : RatingRow) : List RatingRow :=
  tbl.filter (fun r => !(sameRatingKey r row)) ++ [row]

/-- `load_ratings` of etl.py lines 116-122: one replace-insert per input row,
in order. -/
def load_ratings (tbl : List RatingRow) (rows : List RatingRow) : List RatingRow :=
  rows.foldl insert_or_replace_rating tbl

theorem filter_insert_or_replace (tbl : List RatingRow) (r0 : RatingRow) (u m : Int) :
    (insert_or_replace_rating tbl r0).filter (ratingKey u m)
      = if ratingKey u m r0 then [r0] else tbl.filter (ratingKey u m) := by
  unfold insert_or_replace_rating
  rw [List.filter_append, List.filter_filter]
  by_cases h : ratingKey u m r0 = true
  · rw [if_pos h]
    have hnil : tbl.filter (fun a => ratingKey u m a && !(sameRatingKey a r0)) = [] := by
      rw [List.filter_eq_nil_iff]
      intro a _
      simp only [ratingKey, sameRatingKey, Bool.and_eq_true, beq_iff_eq,
        Bool.not_eq_true'] at h ⊢
      rintro ⟨⟨hau, ham⟩, hsame⟩
      rw [hau, ham, h.1, h.2] at hsame
      simp at hsame
    rw [hnil, List.nil_append, List.filter_cons]
    simp [h]
  · rw [if_neg h]
    have hsingle : List.filter (ratingKey u m) [r0] = [] := by
      simp [List.filter_cons, h]
    rw [hsingle, List.append_nil]
    apply List.filter_congr
    intro a _
    by_cases ha : ratingKey u m a = true
    · have hns : sameRatingKey a r0 = false := by
        simp only [ratingKey, Bool.and_eq_true, beq_iff_eq] at ha
        simp only [sameRatingKey, Bool.and_eq_false_iff, beq_eq_false_iff_ne, ne_eq]
        by_cases hu2 : a.user_id = r0.user_id
        · right
          intro hm2
          apply h
          simp only [ratingKey, Bool.and_eq_true, beq_iff_eq]
          exact ⟨hu2 ▸ ha.1, hm2 ▸ ha.2⟩
        · left
          exact hu2
      simp [ha, hns]
    · simp [Bool.eq_false_iff.2 ha]

theorem load_ratings_filter (rows tbl : List RatingRow) (u m : Int) :
    (load_ratings tbl rows).filter (ratingKey u m)
      = match (rows.filter (ratingKey u m)).getLast? with
        | some r => [r]
        | none => tbl.filter (ratingKey u m) := by
  induction rows generalizing tbl with
  | nil => simp [load_ratings]
  | cons r0 rs ih =>
    have hstep : load_ratings tbl (r0 :: rs) = load_ratings (insert_or_replace_rating tbl r0) rs := rfl
    rw [hstep, ih]
    cases hl : (rs.filter (ratingKey u m)).getLast? with
    | some r =>
      obtain ⟨b, tl, hbt⟩ : ∃ b tl, rs.filter (ratingKey u m) = b :: tl := by
        cases hrs : rs.filter (ratingKey u m) with
        | nil => rw [hrs, List.getLast?_eq_none_iff.2 rfl] at hl; simp at hl
        | cons b tl => exact ⟨b, tl, rfl⟩
      rw [List.filter_cons]
      by_cases h0 : ratingKey u m r0 = true
      · rw [if_pos h0, hbt, List.getLast?_cons_cons]
        rw [hbt] at hl
        rw [hl]
      · rw [if_neg h0, hl]
    | none =>
      have hrs : rs.filter (ratingKey u m) = [] := List.getLast?_eq_none_iff.1 hl
      rw [filter_insert_or_replace, List.filter_cons]
      by_cases h0 : ratingKey u m r0 = true
      · rw [if_pos h0, if_pos h0, hrs]
        simp
      · rw [if_neg h0, if_neg h0, hrs]
        simp

/-- C8: after loading, the ratings table has at most one row per
(user, movie) primary key (given the store's key-uniqueness of the initial
table), and the row stored for a key is exactly the LAST input row with that
key; keys not mentioned by the input keep their previous row. -/
theorem C8_load_ratings (tbl rows : List RatingRow) (u m : Int)
    (hpk : ∀ u2 m2 : Int, (tbl.filter (ratingKey u2 m2)).length ≤ 1) :
    ((load_ratings tbl rows).filter (ratingKey u m)
      = match (rows.filter (ratingKey u m)).getLast? with
        | some r => [r]
        | none => tbl.filter (ratingKey u m)) ∧
    ((load_ratings tbl rows).filter (ratingKey u m)).length ≤ 1 := by
  refine ⟨load_ratings_filter rows tbl u m, ?_⟩
  rw [load_ratings_filter rows tbl u m]
  cases (rows.filter (ratingKey u m)).getLast? with
  | some r => simp
  | none => exact hpk u m

/-- C8, witness: the spec's example — (1,10,3.0,100) then (1,10,4.5,200)
loaded into an empty table leaves exactly the row rated 4.5 at time 200. -/
theorem C8_load_ratings_witness :
    (∀ u2 m2 : Int, (([] : List RatingRow).filter (ratingKey u2 m2)).length ≤ 1) ∧
    ((load_ratings [] [⟨1, 10, 3, 100⟩, ⟨1, 10, mkRat 9 2, 200⟩]).filter (ratingKey 1 10)
      = match ([(⟨1, 10, 3, 100⟩ : RatingRow), ⟨1, 10, mkRat 9 2, 200⟩].filter
            (ratingKey 1 10)).getLast? with
        | some r => [r]
        | none => ([] : List RatingRow).filter (ratingKey 1 10)) ∧
    ((load_ratings [] [⟨1, 10, 3, 100⟩, ⟨1, 10, mkRat 9 2, 200⟩]).filter (ratingKey 1 10)).length ≤ 1 := by
  refine ⟨fun u2 m2 => by simp, ?_⟩
  exact C8_load_ratings [] [⟨1, 10, 3, 100⟩, ⟨1, 10, mkRat 9 2, 200⟩] 1 10
    (fun u2 m2 => by simp)

-- Pipeline driver (etl.py lines 124-192) -------------------------------------

/-- Runtime extraction of etl.py lines 154-159: when the Runtime field is
truthy and contains "min", `int()` of its first whitespace-separated token;
any raised error leaves it `None`. -/
def parseRuntime : Option Str → Option Int
  | none => none
  | some rt =>
    if rt ≠ [] then
      if containsSub ("min".data) rt then
        match pySplitWs rt with
        | [] => none
        | tok :: _ => pyInt tok
      else none
    else none

/-- A dimension table (genres / directors): (id, unique name) rows plus the
next autoincrement id. -/
structure NameTable where
  rows : List (Nat × Str)
  nextId : Nat
deriving DecidableEq

/-- `get_or_create_genre` of etl.py lines 90-95. -/
def get_or_create_genre (t : NameTable) (name : Str) : Nat × NameTable :=
  match t.rows.find? (fun p => p.2 == name) with
  | some p => (p.1, t)
  | none => (t.nextId, { rows := t.rows ++ [(t.nextId, name)], nextId := t.nextId + 1 })

/-- `get_or_create_director` of etl.py lines 103-108. -/
def get_or_create_director (t : NameTable) (name : Str) : Nat × NameTable :=
  match t.rows.find? (fun p => p.2 == name) with
  | some p => (p.1, t)
  | none => (t.nextId, { rows := t.rows ++ [(t.nextId, name)], nextId := t.nextId + 1 })

/-- The whole relational store. -/
structure Store where
  movies : MoviesTable
  genres : NameTable
  directors : NameTable
  movie_genres : List (Nat × Nat)
  movie_directors : List (Nat × Nat)
  ratings : List RatingRow
deriving DecidableEq

/-- An empty store. -/
def emptyStore : Store :=
  { movies := ⟨[], 1⟩, genres := ⟨[], 1⟩, directors := ⟨[], 1⟩,
    movie_genres := [], movie_directors := [], ratings := [] }

/-- An in-loop genre link call: store faults are injected at movie
granularity, so the call itself runs faultless and a swallowed duplicate is
a no-op. -/
def linkGenreOk (tbl : List (Nat × Nat)) (m g : Nat) : List (Nat × Nat) :=
  match link_movie_genre tbl m g none with
  | Except.ok t2 => t2
  | Except.error _ => tbl

/-- An in-loop director link call. -/
def linkDirectorOk (tbl : List (Nat × Nat)) (m d : Nat) : List (Nat × Nat) :=
  match link_movie_director tbl m d none with
  | Except.ok t2 => t2
  | Except.error _ => tbl

/-- One row of the movies CSV: (movieId, title, genres), the last possibly
NaN. -/
structure CatalogRow where
  movieId : Int
  title : Str
  genres : Option Str
deriving DecidableEq

/-- One iteration of the enrichment loop (etl.py lines 136-189) over the
pending connection state and the cache: parse title/year, OMDb lookup (cache
inside), extract fields when `Response == "True"`, upsert the movie, link
merged genres, link directors. -/
def processMovie (st : Store) (c : Cache) (oracle : Nat → Option OmdbRecord)
    (row : CatalogRow) : Store × Cache :=
  let ml_id := intToStr row.movieId
  let pr := parseTitleYear row.title
  let res := omdb_lookup c oracle pr.1 pr.2
  let omdb := res.1
  let ok := omdb.Response == some ("True".data)
  let imdb_id : Option Str := if ok then omdb.imdbID else none
  let runtime : Option Int := if ok then parseRuntime omdb.Runtime else none
  let plot : Option Str := if ok then omdb.Plot else none
  let box_office : Option Str := if ok then omdb.BoxOffice else none
  let omdb_genres : Option Str := if ok then omdb.Genre else none
  let director_field : Option Str := if ok then omdb.Director else none
  let movie_unique_id : Str :=
    match imdb_id with
    | some s => if s ≠ [] then s else "ML_".data ++ ml_id
    | none => "ML_".data ++ ml_id
  let up := upsert_movie st.movies movie_unique_id pr.1 pr.2 runtime plot box_office
  let movie_db_id := up.1
  let st1 : Store := { st with movies := up.2 }
  let ml_genres := parse_genres row.genres
  let omdb_genres_list :=
    match omdb_genres with
    | some s => if s ≠ [] then parse_genres (some s) else []
    | none => []
  let combined := dictFromKeys (ml_genres ++ omdb_genres_list)
  let st2 := combined.foldl (fun acc g => let gc := get_or_create_genre acc.genres g; { acc with genres := gc.2, movie_genres := linkGenreOk acc.movie_genres movie_db_id gc.1 }) st1
  let st3 :=
    match director_field with
    | some df =>
      if df ≠ [] ∧ df ≠ ("N/A".data) then
        (((splitChar ',' df).map pyStrip).filter (fun d => d ≠ [])).foldl
          (fun acc dn => let dc := get_or_create_director acc.directors dn; { acc with directors := dc.2, movie_directors := linkDirectorOk acc.movie_directors movie_db_id dc.1 }) st2
      else st2
    | none => st2
  (st3, res.2.1)

/-- The per-movie loop of etl.py lines 136-189 over the pending connection
state; `faults i = some e` injects an unhandled store error while processing
movie `i` (e.g. connectivity loss), which aborts the loop uncaught. -/
def mainLoop (oracles : Nat → Nat → Option OmdbRecord) (faults : Nat → Option DbError) :
    Nat → List CatalogRow → Store → Cache → Except DbError (Store × Cache)
  | _, [], st, c => Except.ok (st, c)
  | i, row :: rest, st, c =>
    match faults i with
    | some e => Except.error e
    | none =>
      let pr := processMovie st c (oracles i) row
      mainLoop oracles faults (i + 1) rest pr.1 pr.2

/-- The driver `main` of etl.py lines 124-192 from the point the connection
opens: ratings load first, then the movie loop, all against a pending state;
the single `conn.commit()` (line 191) runs only after the whole loop.  The
result pairs the run's outcome with the store as COMMITTED after the run. -/
def main_run (s0 : Store) (cache0 : Cache) (oracles : Nat → Nat → Option OmdbRecord)
    (faults : Nat → Option DbError) (ratingRows : List RatingRow)
    (movieRows : List CatalogRow) : Except DbError Store × Store :=
  let pending0 : Store := { s0 with ratings := load_ratings s0.ratings ratingRows }
  match mainLoop oracles faults 0 movieRows pending0 cache0 with
  | Except.error e => (Except.error e, s0)
  | Except.ok pr => (Except.ok pr.1, pr.1)

theorem mainLoop_ok (oracles : Nat → Nat → Option OmdbRecord)
    (faults : Nat → Option DbError) :
    ∀ (rows : List CatalogRow) (i : Nat) (st : Store) (c : Cache),
    (∀ k, k < rows.length → faults (i + k) = none) →
    ∃ fin, mainLoop oracles faults i rows st c = Except.ok fin := by
  intro rows
  induction rows with
  | nil => intro i st c _; exact ⟨(st, c), rfl⟩
  | cons row rest ih =>
    intro i st c h
    have h0 : faults i = none := by simpa using h 0 (by simp)
    simp only [mainLoop, h0]
    apply ih (i + 1)
    intro k hk
    have h2 := h (k + 1) (by simpa using Nat.succ_lt_succ hk)
    rw [show i + (k + 1) = i + 1 + k by omega] at h2
    exact h2

theorem mainLoop_error (oracles : Nat → Nat → Option OmdbRecord)
    (faults : Nat → Option DbError) :
    ∀ (rows : List CatalogRow) (i j : Nat) (st : Store) (c : Cache) (e : DbError),
    j < rows.length → faults (i + j) = some e → (∀ k, k < j → faults (i + k) = none) →
    mainLoop oracles faults i rows st c = Except.error e := by
  intro rows
  induction rows with
  | nil => intro i j st c e hj _ _; simp at hj
  | cons row rest ih =>
    intro i j st c e hj hfe hpre
    cases j with
    | zero =>
      have h0 : faults i = some e := by simpa using hfe
      simp [mainLoop, h0]
    | succ j2 =>
      have h0 : faults i = none := by simpa using hpre 0 (Nat.succ_pos _)
      simp only [mainLoop, h0]
      apply ih (i + 1) j2 _ _ e
      · simpa using Nat.lt_of_succ_lt_succ hj
      · rw [show i + 1 + j2 = i + (j2 + 1) by omega]
        exact hfe
      · intro k hk
        rw [show i + 1 + k = i + (k + 1) by omega]
        exact hpre (k + 1) (Nat.succ_lt_succ hk)

/-- C9: the single commit happens only after the entire enrichment loop — a
fault-free run commits exactly the loop's final state, while an unhandled
error at any movie index aborts the run with the committed store unchanged
(no enrichment progress persisted). -/
theorem C9_single_commit (s0 : Store) (cache0 : Cache)
    (oracles : Nat → Nat → Option OmdbRecord) (faults : Nat → Option DbError)
    (ratingRows : List RatingRow) (movieRows : List CatalogRow) :
    ((∀ i, i < movieRows.length → faults i = none) →
      ∃ fin, mainLoop oracles faults 0 movieRows
          { s0 with ratings := load_ratings s0.ratings ratingRows } cache0 = Except.ok fin ∧
        main_run s0 cache0 oracles faults ratingRows movieRows
          = (Except.ok fin.1, fin.1)) ∧
    (∀ j e, j < movieRows.length → faults j = some e → (∀ k, k < j → faults k = none) →
      main_run s0 cache0 oracles faults ratingRows movieRows = (Except.error e, s0)) := by
  constructor
  · intro h
    obtain ⟨fin, hfin⟩ := mainLoop_ok oracles faults movieRows 0
      { s0 with ratings := load_ratings s0.ratings ratingRows } cache0
      (fun k hk => by simpa using h k hk)
    refine ⟨fin, hfin, ?_⟩
    simp only [main_run, hfin]
  · intro j e hj hfe hpre
    have hloop := mainLoop_error oracles faults movieRows 0 j
      { s0 with ratings := load_ratings s0.ratings ratingRows } cache0 e
      hj (by simpa using hfe) (fun k hk => by simpa using hpre k hk)
    simp only [main_run, hloop]

/-- C9, witness: a one-movie run whose store faults at movie 0 commits
nothing. -/
theorem C9_single_commit_witness :
    (0 < ([(⟨1, "Toy Story (1995)".data, some ("Action".data)⟩ : CatalogRow)]).length ∧
      (fun _ : Nat => (some DbError.operational : Option DbError)) 0
        = some DbError.operational ∧
      (∀ k : Nat, k < 0 →
        (fun _ : Nat => (some DbError.operational : Option DbError)) k = none)) ∧
    main_run emptyStore emptyCache (fun _ _ => none)
        (fun _ => some DbError.operational) []
        [⟨1, "Toy Story (1995)".data, some ("Action".data)⟩]
      = (Except.error DbError.operational, emptyStore) :=
  ⟨⟨by decide, rfl, fun k hk => absurd hk (by omega)⟩,
    (C9_single_commit emptyStore emptyCache (fun _ _ => none)
      (fun _ => some DbError.operational) []
      [⟨1, "Toy Story (1995)".data, some ("Action".data)⟩]).2 0 DbError.operational
      (by decide) rfl (fun k hk => absurd hk (by omega))⟩
